import Mathlib

/-!
Verification development for the aero-enrichment repository.

The TypeScript sources are shallowly embedded: JS strings are modelled as
Lean strings (operated on through their character lists), JS numbers that
carry confidence scores as rationals, fallible operations as Except or
Option values, and the network collaborators (CrustData, Exa, SEC
submissions feed, Firecrawl) as explicit oracle parameters describing the
outcome of each external call.
-/

namespace AeroEnrichment

/-! ## JS string primitives

Character-list models of the JavaScript string operations used by the
sources.  JS regex character class backslash-s is approximated by the ASCII
whitespace characters; every string the claims touch is ASCII. -/

/-- ASCII approximation of the JS whitespace class used by trim and by the
regex backslash-s. -/
def isWsChar (c : Char) : Bool :=
  c == ' ' || c == '\t' || c == '\n' || c == '\r' || c == '\x0b' || c == '\x0c'

/-- Model of JS toLowerCase on a character list (ASCII). -/
def toLowerList (l : List Char) : List Char := l.map Char.toLower

/-- Model of JS toLowerCase on a string (ASCII). -/
def toLowerStr (s : String) : String := String.mk (toLowerList s.toList)

/-- Model of JS trim: drop whitespace from both ends. -/
def trimList (l : List Char) : List Char :=
  ((l.dropWhile isWsChar).reverse.dropWhile isWsChar).reverse

/-- Helper for substring containment: does pat occur contiguously in l. -/
def containsSub : List Char → List Char → Bool
  | [], pat => pat.isEmpty
  | c :: t, pat => pat.isPrefixOf (c :: t) || containsSub t pat

/-- Model of JS String.prototype.includes. -/
def containsSubstr (s pat : String) : Bool := containsSub s.toList pat.toList

/-- Model of JS split with a single-character separator.  As in JS,
splitting the empty string yields one empty field. -/
def splitOnChar (sep : Char) : List Char → List (List Char)
  | [] => [[]]
  | c :: cs =>
    if c == sep then [] :: splitOnChar sep cs
    else
      match splitOnChar sep cs with
      | [] => [[c]]
      | w :: ws => (c :: w) :: ws

/-- JS truthiness of an optional string: undefined and the empty string are
falsy, every other string is truthy. -/
def strTruthy : Option String → Bool
  | none => false
  | some s => s ≠ ""

/-! ## SEC EDGAR client (sec-edgar-client.ts)

Pure core of the SECEdgarClient class.  File-system caching and the HTTP
fetch are abstracted: the ticker directory arrives as an Except value
(error when loadTickerDirectory would have thrown), and the two override
tables as association lists standing for the JSON objects loaded at
construction time. -/

/-- Model of zeroPadCIK (sec-edgar-client.ts lines 290-293): stringify,
strip leading zeros (the regex caret-0-plus replace), left-pad with zeros
to width 10. -/
def zeroPadCIK (s : String) : String :=
  let numeric := s.toList.dropWhile (· == '0')
  String.mk (List.replicate (10 - numeric.length) '0' ++ numeric)

/-- Punctuation replaced by spaces in normalizeCompanyName (line 298). -/
def punctuationChars : List Char := ['&', '.', ',', '\'', '"', '(', ')', '-']

/-- Replace every punctuation character by a space (line 298). -/
def replacePunctuation (l : List Char) : List Char :=
  l.map (fun c => if punctuationChars.contains c then ' ' else c)

/-- JS regex word character (backslash-w): ASCII letter, digit or
underscore. -/
def isWordChar (c : Char) : Bool := c.isAlphanum || c == '_'

/-- Corporate-suffix stop words removed by the first word-boundary regex of
normalizeCompanyName (line 299).  The dotted entries can never match after
punctuation removal, exactly as in the source, where dots have already been
replaced by spaces when this regex runs. -/
def corporateSuffixWords : List String :=
  ["incorporated", "inc", "corp", "corporation", "ltd", "limited", "plc",
   "group", "holdings", "co", "company", "s.a.", "s.a", "sa", "ag", "nv",
   "se", "ab"]

/-- Industry-generic stop words removed by the second word-boundary regex of
normalizeCompanyName (line 300). -/
def industryGenericWords : List String :=
  ["operations", "international", "aerospace", "defense", "systems",
   "technologies", "solutions", "services", "manufacturing", "aviation",
   "space", "military"]

/-- Emit an accumulated maximal word-character run, dropping it when it is
one of the stop words.  A word-boundary-delimited regex alternative made of
word characters matches exactly the maximal word-character runs equal to
it, so deleting those runs is the semantics of the source regex replace. -/
def flushRun (stop : List String) (run : List Char) : List Char :=
  if stop.contains (String.mk run) then [] else run

/-- Scan a character list, accumulating maximal word-character runs and
deleting the ones that are stop words (model of the global word-boundary
regex replaces at lines 299-300). -/
def removeStopRunsAux (stop : List String) (run : List Char) : List Char → List Char
  | [] => flushRun stop run
  | c :: cs =>
    if isWordChar c then removeStopRunsAux stop (run ++ [c]) cs
    else flushRun stop run ++ c :: removeStopRunsAux stop [] cs

/-- Delete stop-word runs from a character list. -/
def removeStopRuns (stop : List String) (l : List Char) : List Char :=
  removeStopRunsAux stop [] l

/-- Model of the regex replacing every whitespace run by one space
(line 301). -/
def collapseWs : List Char → List Char
  | [] => []
  | [c] => if isWsChar c then [' '] else [c]
  | c :: d :: rest =>
    if isWsChar c && isWsChar d then collapseWs (d :: rest)
    else (if isWsChar c then ' ' else c) :: collapseWs (d :: rest)

/-- Model of normalizeCompanyName (sec-edgar-client.ts lines 295-304):
lowercase, trim, punctuation to spaces, remove corporate suffixes, remove
industry-generic words, collapse whitespace, trim. -/
def normalizeCompanyName (name : String) : String :=
  let lower := trimList (toLowerList name.toList)
  let noPunct := replacePunctuation lower
  let noCorp := removeStopRuns corporateSuffixWords noPunct
  let noIndustry := removeStopRuns industryGenericWords noCorp
  String.mk (trimList (collapseWs noIndustry))

/-- Token set of a normalized company name: split on single spaces, drop
empty fields, collect into a set (findCompanyMatch lines 307-308 and 313-314). -/
def nameTokens (s : String) : Finset String :=
  (((splitOnChar ' ' (normalizeCompanyName s).toList).map String.mk).filter
    (fun t => t ≠ "")).toFinset

/-- Model of jaccardSimilarity (lines 325-329): intersection size over
union size, with a union size of zero replaced by one (the JS or-1 guard). -/
def jaccardSimilarity (a b : Finset String) : ℚ :=
  let intersectionSize := (a ∩ b).card
  let unionSize := (a ∪ b).card
  (intersectionSize : ℚ) / (if unionSize = 0 then 1 else (unionSize : ℚ))

/-- One row of the SEC company-tickers directory. -/
structure TickerEntry where
  cik_str : Nat
  ticker : String
  title : String
deriving DecidableEq

/-- Result type of identifyPublicCompany. -/
structure PublicCompanyMatch where
  isPublic : Bool
  confidence : ℚ
  matchedTitle : Option String := none
  ticker : Option String := none
  cik : Option String := none
  source : Option String := none
deriving DecidableEq

/-- Loop body of findCompanyMatch (lines 312-319): score an entry against
the query tokens and keep it when the score reaches 0.8 and strictly beats
the current best. -/
def findCompanyMatchStep (targetTokens : Finset String)
    (best : Option (TickerEntry × ℚ)) (entry : TickerEntry) : Option (TickerEntry × ℚ) :=
  let score := jaccardSimilarity targetTokens (nameTokens entry.title)
  let better :=
    match best with
    | none => true
    | some b => decide (b.2 < score)
  if decide ((0.8 : ℚ) ≤ score) && better then some (entry, score) else best

/-- Model of findCompanyMatch (lines 306-323): fold over the directory
keeping the best entry whose Jaccard score against the query tokens is at
least 0.8, strict improvement required to replace the current best. -/
def findCompanyMatch (companyName : String) (directory : List TickerEntry) :
    Option (TickerEntry × ℚ) :=
  directory.foldl (findCompanyMatchStep (nameTokens companyName)) none

/-- Model of Number(x.toFixed(2)) for a score in the unit interval: round
to the nearest hundredth. -/
def round2 (q : ℚ) : ℚ := ((round (q * 100) : ℤ) : ℚ) / 100

/-- Property lookup in an override table, with JS truthiness: a missing key
and an empty-string value both fail the guard. -/
def lookupOverride (table : List (String × String)) (key : String) : Option String :=
  match table.lookup key with
  | some v => if v = "" then none else some v
  | none => none

/-- Domain extraction from a website (identifyPublicCompany line 126):
lowercase, strip a leading scheme, strip a leading www dot, keep the part
before the first slash. -/
def extractDomain (website : Option String) : String :=
  let l := toLowerList (website.getD "").toList
  let l1 :=
    if ("https://".toList).isPrefixOf l then l.drop 8
    else if ("http://".toList).isPrefixOf l then l.drop 7
    else l
  let l2 := if ("www.".toList).isPrefixOf l1 then l1.drop 4 else l1
  String.mk (l2.takeWhile (fun c => c ≠ '/'))

/-- Domain-override step of identifyPublicCompany (lines 126-129),
including the JS truthiness guard on the extracted domain. -/
def domainOverrideHit (overridesByDomain : List (String × String))
    (website : Option String) : Option String :=
  let domain := extractDomain website
  if domain ≠ "" then lookupOverride overridesByDomain domain else none

/-- Name-override step of identifyPublicCompany (lines 131-134). -/
def nameOverrideHit (overridesByName : List (String × String))
    (companyName : String) : Option String :=
  let normalizedName := normalizeCompanyName companyName
  if normalizedName ≠ "" then lookupOverride overridesByName normalizedName else none

/-- Model of identifyPublicCompany (sec-edgar-client.ts lines 123-156).
The directory argument is the outcome of loadTickerDirectory; an error
value models the directory fetch throwing, which the catch at line 153
turns into an isPublic false, confidence 0 result. -/
def identifyPublicCompany (overridesByDomain overridesByName : List (String × String))
    (companyName : String) (website : Option String)
    (directory : Except String (List TickerEntry)) : PublicCompanyMatch :=
  match domainOverrideHit overridesByDomain website with
  | some t =>
    { isPublic := true, confidence := 1, matchedTitle := some companyName,
      ticker := some t, source := some "overrides" }
  | none =>
    match nameOverrideHit overridesByName companyName with
    | some t =>
      { isPublic := true, confidence := 1, matchedTitle := some companyName,
        ticker := some t, source := some "overrides" }
    | none =>
      match directory with
      | .error _ => { isPublic := false, confidence := 0 }
      | .ok dir =>
        match findCompanyMatch companyName dir with
        | some m =>
          { isPublic := true, confidence := round2 m.2,
            matchedTitle := some m.1.title, ticker := some m.1.ticker,
            cik := some (zeroPadCIK (toString m.1.cik_str)),
            source := some "sec_directory" }
        | none => { isPublic := false, confidence := 0 }

/-- One raw entry of the recent-filings feed consumed by listAllFilings:
the parallel arrays of the submissions JSON, row by row. -/
structure RawFiling where
  form : String
  accessionNumber : String
  primaryDocument : String
  reportDate : Option String := none
  filingDate : Option String := none
deriving DecidableEq

/-- Classified filing record produced by listAllFilings. -/
structure EdgarFiling where
  form : String
  accessionNumber : String
  primaryDocument : String
  reportDate : Option String
  filingDate : Option String
  description : String
  isExcluded : Bool
deriving DecidableEq

/-- Ownership and transaction form types excluded outright
(isStockTransactionFiling line 336). -/
def stockForms : List String := ["3", "4", "5", "144", "3/A", "4/A", "5/A", "144/A"]

/-- Description keywords whose case-insensitive presence excludes a filing
(isStockTransactionFiling lines 340-345). -/
def stockKeywords : List String :=
  ["stock purchase", "stock sale", "share purchase", "share sale",
   "insider trading", "beneficial ownership", "ownership change",
   "acquisition of securities", "disposition of securities",
   "form 3", "form 4", "form 5", "form 144"]

/-- Model of isStockTransactionFiling (lines 331-348): the form is matched
against the exclusion forms as written, the description lowercased and
scanned for any exclusion keyword. -/
def isStockTransactionFiling (form description : String) : Bool :=
  if stockForms.contains form then true
  else stockKeywords.any (fun keyword => containsSubstr (toLowerStr description) keyword)

/-- Pure classification core of listAllFilings (lines 183-207): the first
maxCount raw rows become records whose description is the primary document
reference and whose isExcluded flag comes from isStockTransactionFiling. -/
def listAllFilingsPure (recent : List RawFiling) (maxCount : Nat) : List EdgarFiling :=
  (recent.take maxCount).map (fun f =>
    { form := f.form, accessionNumber := f.accessionNumber,
      primaryDocument := f.primaryDocument, reportDate := f.reportDate,
      filingDate := f.filingDate, description := f.primaryDocument,
      isExcluded := isStockTransactionFiling f.form f.primaryDocument })

/-! ## Ticker discovery (ticker-discovery-service.ts)

The discovery loop (lines 58-71) only observes, for each strategy, the
TickerResult the strategy returned or the fact that it produced nothing
(null result, thrown error and timeout all make the loop continue).  The
Exa-backed strategies are therefore abstracted by an oracle giving, per
strategy, the ticker (and URL- or loop-derived exchange) its extraction
step found, while the strategy wrappers below attach the hard-coded
confidence and method constants of the source.  The manual-mapping
strategy is fully deterministic and is modelled concretely. -/

/-- Identifier for each discovery strategy of the cascade (lines 36-56). -/
inductive StrategyId
  | googleFinance
  | yahooFinance
  | alphaVantage
  | financialModelingPrep
  | exaMultiQuery
  | internationalExchanges
  | europeanExchanges
  | asianExchanges
  | webScraping
  | manualMappings
deriving DecidableEq

/-- Result type of a discovery strategy (TickerResult in the source). -/
structure TickerResult where
  ticker : String
  confidence : ℚ
  method : String
  exchange : Option String := none
  companyName : Option String := none
deriving DecidableEq

/-- What the web-search plus extraction steps of one strategy found: the
extracted ticker and, for the strategies that derive one, an exchange. -/
structure FoundTicker where
  ticker : String
  exchange : Option String := none
deriving DecidableEq

/-- The strategy cascade order built by discoverTicker (lines 36-56): the
international, European and Asian exchange sweeps are present only when
includeInternational is set. -/
def strategyOrder (includeInternational : Bool) : List StrategyId :=
  [.googleFinance, .yahooFinance, .alphaVantage, .financialModelingPrep, .exaMultiQuery] ++
    (if includeInternational then
      [.internationalExchanges, .europeanExchanges, .asianExchanges]
    else []) ++
    [.webScraping, .manualMappings]

/-- The static manual name-to-ticker table of searchManualMappings
(lines 352-375), in insertion order: key, ticker, confidence, exchange. -/
def manualMappingTable : List (String × String × ℚ × String) :=
  [("Boeing", ("BA", 0.99, "NYSE")),
   ("Lockheed Martin", ("LMT", 0.99, "NYSE")),
   ("Northrop Grumman", ("NOC", 0.99, "NYSE")),
   ("Raytheon", ("RTX", 0.99, "NYSE")),
   ("General Dynamics", ("GD", 0.99, "NYSE")),
   ("Textron", ("TXT", 0.99, "NYSE")),
   ("Ametek", ("AME", 0.99, "NYSE")),
   ("Barnes Group", ("B", 0.99, "NYSE")),
   ("Parker Hannifin", ("PH", 0.99, "NYSE")),
   ("General Electric", ("GE", 0.99, "NYSE")),
   ("Honeywell", ("HON", 0.99, "NYSE")),
   ("Moog", ("MOG.A", 0.99, "NYSE")),
   ("Hexcel", ("HXL", 0.99, "NYSE")),
   ("Triumph Group", ("TGI", 0.99, "NYSE")),
   ("AeroVironment", ("AVAV", 0.99, "NASDAQ")),
   ("Anduril Industries", ("ANDU", 0.95, "NYSE")),
   ("Rolls Royce", ("RR", 0.99, "LSE")),
   ("Leonardo DRS", ("DRS", 0.99, "NYSE")),
   ("Rheinmetall", ("RHM", 0.99, "XETRA")),
   ("Fincantieri", ("FCT", 0.99, "MIL")),
   ("Siemens Energy", ("ENR", 0.99, "XETRA")),
   ("Albany International", ("AIN", 0.99, "NYSE"))]

/-- Model of searchManualMappings (lines 350-391): lowercase and trim the
company name, then return the first table entry whose lowercased key
contains the normalized name or is contained in it. -/
def searchManualMappings (companyName : String) : Option TickerResult :=
  let normalizedName := String.mk (trimList (toLowerList companyName.toList))
  (manualMappingTable.find? (fun e =>
      containsSubstr normalizedName (toLowerStr e.1) ||
        containsSubstr (toLowerStr e.1) normalizedName)).map
    (fun e =>
      { ticker := e.2.1, confidence := e.2.2.1, method := "manual_mapping",
        exchange := some e.2.2.2, companyName := some companyName })

/-- Outcome of one strategy as the discovery loop sees it, with the
confidence and method constants of each search function (searchGoogleFinance
0.95, searchYahooFinance 0.9, searchAlphaVantage 0.8,
searchFinancialModelingPrep 0.85, searchExaMultiQuery 0.75, the three
exchange sweeps 0.7, searchWebScraping 0.8).  The URL-derived exchange is
kept only by the strategies that set it in the source. -/
def strategyOutcome (companyName : String) (oracle : StrategyId → Option FoundTicker) :
    StrategyId → Option TickerResult
  | .googleFinance => (oracle .googleFinance).map (fun f =>
      { ticker := f.ticker, confidence := 0.95, method := "google_finance",
        exchange := f.exchange, companyName := some companyName })
  | .yahooFinance => (oracle .yahooFinance).map (fun f =>
      { ticker := f.ticker, confidence := 0.9, method := "yahoo_finance",
        exchange := f.exchange, companyName := some companyName })
  | .alphaVantage => (oracle .alphaVantage).map (fun f =>
      { ticker := f.ticker, confidence := 0.8, method := "alpha_vantage",
        companyName := some companyName })
  | .financialModelingPrep => (oracle .financialModelingPrep).map (fun f =>
      { ticker := f.ticker, confidence := 0.85, method := "financial_modeling_prep",
        companyName := some companyName })
  | .exaMultiQuery => (oracle .exaMultiQuery).map (fun f =>
      { ticker := f.ticker, confidence := 0.75, method := "exa_search",
        companyName := some companyName })
  | .internationalExchanges => (oracle .internationalExchanges).map (fun f =>
      { ticker := f.ticker, confidence := 0.7, method := "international_exchange",
        exchange := f.exchange, companyName := some companyName })
  | .europeanExchanges => (oracle .europeanExchanges).map (fun f =>
      { ticker := f.ticker, confidence := 0.7, method := "european_exchange",
        exchange := f.exchange, companyName := some companyName })
  | .asianExchanges => (oracle .asianExchanges).map (fun f =>
      { ticker := f.ticker, confidence := 0.7, method := "asian_exchange",
        exchange := f.exchange, companyName := some companyName })
  | .webScraping => (oracle .webScraping).map (fun f =>
      { ticker := f.ticker, confidence := 0.8, method := "web_scraping",
        companyName := some companyName })
  | .manualMappings => searchManualMappings companyName

/-- Nominal confidence constant of each strategy other than the
manual-mapping table, whose confidence is stored per entry. -/
def nominalConfidence : StrategyId → ℚ
  | .googleFinance => 0.95
  | .yahooFinance => 0.9
  | .alphaVantage => 0.8
  | .financialModelingPrep => 0.85
  | .exaMultiQuery => 0.75
  | .internationalExchanges => 0.7
  | .europeanExchanges => 0.7
  | .asianExchanges => 0.7
  | .webScraping => 0.8
  | .manualMappings => 0.99

/-- The discovery loop of discoverTicker (lines 58-71) over the ordered
strategy outcomes: execute strategies in order, return the first result
whose confidence is strictly above 0.7, otherwise fall through.  The first
component records which strategies the loop executed. -/
def runCascade : List (StrategyId × Option TickerResult) → List StrategyId × Option TickerResult
  | [] => ([], none)
  | (s, o) :: rest =>
    match o with
    | some r =>
      if (0.7 : ℚ) < r.confidence then ([s], some r)
      else
        let p := runCascade rest
        (s :: p.1, p.2)
    | none =>
      let p := runCascade rest
      (s :: p.1, p.2)

/-- Model of discoverTicker (lines 25-71): build the strategy cascade for
the given options and run the loop.  The returned pair is the list of
executed strategies and the discovered ticker, if any. -/
def discoverTicker (companyName : String) (oracle : StrategyId → Option FoundTicker)
    (includeInternational : Bool) : List StrategyId × Option TickerResult :=
  runCascade ((strategyOrder includeInternational).map
    (fun s => (s, strategyOutcome companyName oracle s)))

/-- Modelled from the spec: the cascade confidence sequence the
specification asserts for a discovery run with international search
enabled, manual-mapping lookup excluded — site-restricted structured-quote
search 0.95, alternate provider 0.90, financial-modeling keyword search
0.85, generic ticker/stock keyword search 0.80, multi-query broad search
0.75, three regional sweeps 0.70 each, investor-relations site search
0.80. -/
def specClaimedCascadeConfidences : List ℚ :=
  [0.95, 0.9, 0.85, 0.8, 0.75, 0.7, 0.7, 0.7, 0.8]

/-! ## Orchestrator (enhanced-enrichment-service.ts)

Model of enrichCompany.  The shared mutable result object is threaded as
explicit state; the six task closures become state transformers driven by
a task environment describing the outcome of each collaborator call.  The
enrichmentFields bookkeeping of lines 320-391 touches no field any claim
mentions and is not modelled.  Concurrency and the per-task timeout are
not modelled either: the task list built at snapshot time never holds more
than one task (proved below), so sequential execution is exact. -/

/-- The slice of a CrustData company object the orchestrator reads. -/
structure Company where
  name : String
  domain : Option String := none
deriving DecidableEq

/-- One filing summary stored into result.secData.filings (lines 182-188).
The EdgarFiling rows carry no content field, so content is always
undefined. -/
structure FilingSummary where
  form : String
  accessionNumber : String
  reportDate : Option String := none
  filingDate : Option String := none
  content : Option String := none
deriving DecidableEq

/-- result.secData (lines 14-26 and 177-201). -/
structure SecDataRec where
  isPublic : Bool
  confidence : ℚ
  ticker : Option String := none
  cik : Option String := none
  filings : Option (List FilingSummary) := none
deriving DecidableEq

/-- Abstraction of the structured signals returned by the
SECSignalsExtractor collaborator; only its presence matters to the claims. -/
structure SECSignals where
  totalSignals : Nat := 0
deriving DecidableEq

/-- One Exa search result as stored in result.exaData; abstracted to its
URL. -/
structure ExaItem where
  url : String
deriving DecidableEq

/-- result.exaData (lines 28-32). -/
structure ExaData where
  financialDocuments : List ExaItem := []
  news : List ExaItem := []
  technologyStack : List ExaItem := []
deriving DecidableEq

/-- Abstraction of the Firecrawl extraction result; only its presence
matters to the claims. -/
structure FirecrawlData where
  scrapedPageCount : Nat := 0
deriving DecidableEq

/-- The EnhancedEnrichmentResult record (lines 8-46), restricted to the
fields the claims mention.  The initial value of every optional field is
undefined, company is null and success false (lines 118-125). -/
structure EnrichResult where
  company : Option Company := none
  ticker : Option String := none
  tickerConfidence : Option ℚ := none
  tickerMethod : Option String := none
  isPublic : Option Bool := none
  secData : Option SecDataRec := none
  secSignals : Option SECSignals := none
  exaData : Option ExaData := none
  firecrawlData : Option FirecrawlData := none
  error : Option String := none
  success : Bool := false
deriving DecidableEq

/-- EnrichmentOptions (lines 48-65): a missing field takes the destructuring
default of lines 104-116. -/
structure EnrichmentOptions where
  includeCrustData : Option Bool := none
  includeExa : Option Bool := none
  includeSEC : Option Bool := none
  includeTickerDiscovery : Option Bool := none
  includeSECSignals : Option Bool := none
  includeFirecrawl : Option Bool := none
  includeFinancialDocs : Option Bool := none
  includeNews : Option Bool := none
  includeTechStack : Option Bool := none
  maxConcurrency : Option Nat := none

/-- The six tasks enrichCompany can push (steps 1 to 6). -/
inductive TaskKind
  | crustData
  | tickerDiscovery
  | sec
  | secSignals
  | exa
  | firecrawl
deriving DecidableEq

/-- Outcome of the CrustData base-profile fetch as seen by the step-1 task:
a profile, a non-success response carrying an optional error message, or a
thrown error. -/
inductive CrustOutcome
  | ok (c : Company)
  | err (msg : Option String)
  | exn (msg : String)
deriving DecidableEq

/-- True when the base-profile fetch did not produce a company. -/
def CrustOutcome.isFailure : CrustOutcome → Bool
  | .ok _ => false
  | .err _ => true
  | .exn _ => true

/-- Outcome of the step-3 SEC task collaborator calls: the
identifyPublicCompany match together with the filings listAllFilings
returned, or a thrown error somewhere in the task body. -/
inductive SecTaskOutcome
  | identified (m : PublicCompanyMatch) (filings : List FilingSummary)
  | exn

/-- Environment describing the outcome of every collaborator call one
enrichCompany run can make. -/
structure TaskEnv where
  crust : CrustOutcome
  tickerOutcome : Option TickerResult := none
  secOutcome : SecTaskOutcome := .exn
  signalsOutcome : Option SECSignals := none
  exaFinancial : List ExaItem := []
  exaNews : List ExaItem := []
  exaTech : List ExaItem := []
  firecrawlOutcome : Option FirecrawlData := none

/-- Step-1 task body (lines 131-143): on success store the company, on a
non-success response store its error message or the fixed default, on a
thrown error store the prefixed message. -/
def runCrustTask (o : CrustOutcome) (r : EnrichResult) : EnrichResult :=
  match o with
  | .ok c => { r with company := some c }
  | .err m =>
    let msg :=
      match m with
      | some s => if s = "" then "Failed to get company data from CrustData" else s
      | none => "Failed to get company data from CrustData"
    { r with error := some msg }
  | .exn m => { r with error := some ("CrustData: " ++ m) }

/-- Step-2 task body (lines 148-163): reading result.company.name throws
when company is null, and the catch only logs; a null discovery result
changes nothing; a discovered ticker fills the four ticker fields. -/
def runTickerTask (outcome : Option TickerResult) (r : EnrichResult) : EnrichResult :=
  match r.company with
  | none => r
  | some _ =>
    match outcome with
    | none => r
    | some t =>
      { r with ticker := some t.ticker, tickerConfidence := some t.confidence,
               tickerMethod := some t.method, isPublic := some true }

/-- Step-3 task body (lines 168-203): a public match with a truthy CIK
stores the filings summary, any other match stores a non-public record with
the match confidence, and a thrown error stores a non-public record with
confidence 0. -/
def runSecTask (outcome : SecTaskOutcome) (r : EnrichResult) : EnrichResult :=
  match outcome with
  | .exn => { r with secData := some { isPublic := false, confidence := 0 } }
  | .identified m filings =>
    if m.isPublic && strTruthy m.cik then
      let sd : SecDataRec :=
        { isPublic := true, confidence := m.confidence, ticker := m.ticker,
          cik := m.cik, filings := some filings }
      { r with secData := some sd }
    else
      { r with secData := some { isPublic := false, confidence := m.confidence } }

/-- Step-4 task body (lines 208-233): reading result.secData.filings throws
when either is undefined and the catch only logs; with filings present the
extractor runs only when some filing has truthy content, and only a
successful extraction stores signals. -/
def runSecSignalsTask (outcome : Option SECSignals) (r : EnrichResult) : EnrichResult :=
  match r.secData with
  | none => r
  | some sd =>
    match sd.filings with
    | none => r
    | some fs =>
      let documents := fs.filter (fun f => strTruthy f.content)
      if documents.length > 0 then
        match outcome with
        | some sg => { r with secSignals := some sg }
        | none => r
      else r

/-- Step-5 task body (lines 238-289): reading result.company.name throws
when company is null, and the outer catch then stores three empty lists;
otherwise each sub-search contributes its (already failure-defaulted) list
when its include flag and, for financial documents, a truthy ticker allow
it. -/
def runExaTask (o : EnrichmentOptions) (env : TaskEnv) (r : EnrichResult) : EnrichResult :=
  match r.company with
  | none => { r with exaData := some {} }
  | some _ =>
    let d : ExaData :=
      { financialDocuments :=
          if o.includeFinancialDocs.getD true && strTruthy r.ticker then env.exaFinancial
          else [],
        news := if o.includeNews.getD true then env.exaNews else [],
        technologyStack := if o.includeTechStack.getD true then env.exaTech else [] }
    { r with exaData := some d }

/-- Step-6 task body (lines 294-304): reading result.company.name throws
when company is null and the catch only logs; otherwise a successful
extraction stores the Firecrawl data. -/
def runFirecrawlTask (outcome : Option FirecrawlData) (r : EnrichResult) : EnrichResult :=
  match r.company with
  | none => r
  | some _ =>
    match outcome with
    | some d => { r with firecrawlData := some d }
    | none => r

/-- Dispatch one task body. -/
def runTask (o : EnrichmentOptions) (env : TaskEnv) : TaskKind → EnrichResult → EnrichResult
  | .crustData, r => runCrustTask env.crust r
  | .tickerDiscovery, r => runTickerTask env.tickerOutcome r
  | .sec, r => runSecTask env.secOutcome r
  | .secSignals, r => runSecSignalsTask env.signalsOutcome r
  | .exa, r => runExaTask o env r
  | .firecrawl, r => runFirecrawlTask env.firecrawlOutcome r

/-- The task-list construction of enrichCompany (lines 127-305): each push
is guarded by the include flag and by the JS truthiness of the dependency
fields of the shared result object as they are at construction time. -/
def buildTasks (o : EnrichmentOptions) (r : EnrichResult) : List TaskKind :=
  (if o.includeCrustData.getD true then [TaskKind.crustData] else []) ++
    (if o.includeTickerDiscovery.getD true && r.company.isSome then
      [TaskKind.tickerDiscovery]
    else []) ++
    (if o.includeSEC.getD true &&
        (strTruthy r.ticker || strTruthy (r.company.map Company.name)) then
      [TaskKind.sec]
    else []) ++
    (if o.includeSECSignals.getD true &&
        (match r.secData with
         | some sd => sd.filings.isSome
         | none => false) &&
        strTruthy r.ticker then
      [TaskKind.secSignals]
    else []) ++
    (if o.includeExa.getD true && r.company.isSome then [TaskKind.exa] else []) ++
    (if o.includeFirecrawl.getD true && r.company.isSome then [TaskKind.firecrawl] else [])

/-- Model of enrichCompany (lines 96-397): build the task list against the
fresh result object, run the tasks, then set success to the JS negation of
the error field (line 393). -/
def enrichCompany (o : EnrichmentOptions) (env : TaskEnv) : EnrichResult :=
  let r0 : EnrichResult := {}
  let tasks := buildTasks o r0
  let r1 := tasks.foldl (fun r k => runTask o env k r) r0
  { r1 with success := !(strTruthy r1.error) }

/-! ## Bulk enrichment (enrichCompanies, lines 402-427) -/

/-- The concurrency the bulk loop uses (line 407): the JS or-expression
makes an absent or zero maxConcurrency fall back to 3. -/
def effectiveConcurrency (o : EnrichmentOptions) : Nat :=
  match o.maxConcurrency with
  | none => 3
  | some 0 => 3
  | some n => n

/-- The batching loop of enrichCompanies (lines 410-424) with batch size
one more than the parameter: it returns the consecutive batches and the
number of inter-batch delays, one delay after every batch that leaves
identifiers unprocessed. -/
def batchLoop (c : Nat) : List String → List (List String) × Nat
  | [] => ([], 0)
  | x :: xs =>
    let rest := xs.drop c
    let p := batchLoop c rest
    ((x :: xs.take c) :: p.1, (if rest.isEmpty then 0 else 1) + p.2)
termination_by l => l.length
decreasing_by
  simp only [List.length_cons, List.length_drop]
  omega

/-- Model of enrichCompanies (lines 402-427): slice the identifier list
into batches of the effective concurrency, enrich every identifier of a
batch under its own environment, concatenate batch results in order, and
count the inter-batch delays. -/
def enrichCompanies (ids : List String) (o : EnrichmentOptions)
    (envOf : String → TaskEnv) : List EnrichResult × Nat :=
  let c := effectiveConcurrency o
  let p := batchLoop (c - 1) ids
  ((p.1.map (fun b => b.map (fun i => enrichCompany o (envOf i)))).flatten, p.2)

/-! ## Helper lemmas -/

theorem dropWhile_zero_replicate_append (n : Nat) (t : List Char) :
    ((List.replicate n '0' ++ t).dropWhile (· == '0')) = t.dropWhile (· == '0') := by
  induction n with
  | zero => simp
  | succ n ih => simpa [List.replicate_succ, List.dropWhile_cons] using ih

theorem dropWhile_zero_idem (l : List Char) :
    ((l.dropWhile (· == '0')).dropWhile (· == '0')) = l.dropWhile (· == '0') := by
  induction l with
  | nil => rfl
  | cons c t ih =>
    by_cases h : (c == '0') = true
    · simp [List.dropWhile_cons, h, ih]
    · simp [List.dropWhile_cons, h]

theorem replicate_takeWhile_zero (l : List Char) :
    List.replicate (l.takeWhile (· == '0')).length '0' = l.takeWhile (· == '0') := by
  symm
  apply List.eq_replicate_of_mem
  intro b hb
  have hp := List.mem_takeWhile_imp (p := fun x => x == '0') hb
  exact eq_of_beq hp

theorem pad_reconstruct (l : List Char) (h : l.length = 10) :
    List.replicate (10 - (l.dropWhile (· == '0')).length) '0' ++ l.dropWhile (· == '0') = l := by
  have htd := List.takeWhile_append_dropWhile (p := (· == '0')) (l := l)
  have hlen : (l.takeWhile (· == '0')).length + (l.dropWhile (· == '0')).length = 10 := by
    have hc := congrArg List.length htd
    rw [List.length_append, h] at hc
    exact hc
  have h10 : 10 - (l.dropWhile (· == '0')).length = (l.takeWhile (· == '0')).length := by
    omega
  rw [h10, replicate_takeWhile_zero, htd]

theorem zeroPadCIK_toList (s : String) :
    (zeroPadCIK s).toList =
      List.replicate (10 - (s.toList.dropWhile (· == '0')).length) '0' ++
        s.toList.dropWhile (· == '0') := rfl

/-! ## Claim theorems -/

/-- C8: CIK zero-padding normalization is idempotent — it leaves an
already-10-character value unchanged, applying it twice equals applying it
once for every input string (hence for every numeric input), and
normalizing the string 320193 yields 0000320193. -/
theorem zeroPadCIK_spec (s : String) :
    (s.length = 10 → zeroPadCIK s = s) ∧
    zeroPadCIK (zeroPadCIK s) = zeroPadCIK s ∧
    zeroPadCIK "320193" = "0000320193" := by
  refine ⟨?_, ?_, by decide⟩
  · intro h
    have h2 : s.toList.length = 10 := h
    have hl := pad_reconstruct s.toList h2
    show String.mk _ = s
    rw [hl]
    rfl
  · have hd : (zeroPadCIK s).toList.dropWhile (· == '0') = s.toList.dropWhile (· == '0') := by
      rw [zeroPadCIK_toList, dropWhile_zero_replicate_append, dropWhile_zero_idem]
    show String.mk _ = _
    rw [hd]
    rfl

/-- C8 witness: the concrete already-padded value 0000320193 has length 10
and is a fixed point of zeroPadCIK. -/
theorem zeroPadCIK_spec_witness :
    ("0000320193" : String).length = 10 ∧ zeroPadCIK "0000320193" = "0000320193" :=
  ⟨by decide, (zeroPadCIK_spec "0000320193").1 (by decide)⟩

/-- C9 counterexample: the company name Inc normalizes to an empty token
set, and matching it against itself yields Jaccard similarity 0, not 1, so
self-similarity 1.0 fails for this name. -/
theorem jaccard_self_inc_ne_one :
    ¬ jaccardSimilarity (nameTokens "Inc") (nameTokens "Inc") = 1 := by
  have h : nameTokens "Inc" = ∅ := by decide
  rw [h]
  simp [jaccardSimilarity]

/-- C9 amended: Jaccard similarity is symmetric and lies in the unit
interval; a name matched against itself after normalization yields
similarity exactly 1.0 whenever its normalized token set is nonempty,
and similarity 0 when the normalized token set is empty. -/
theorem jaccardSimilarity_props (a b : Finset String) (name : String) :
    jaccardSimilarity a b = jaccardSimilarity b a ∧
    0 ≤ jaccardSimilarity a b ∧
    jaccardSimilarity a b ≤ 1 ∧
    (nameTokens name ≠ ∅ →
      jaccardSimilarity (nameTokens name) (nameTokens name) = 1) ∧
    (nameTokens name = ∅ →
      jaccardSimilarity (nameTokens name) (nameTokens name) = 0) := by
  refine ⟨?_, ?_, ?_, ?_, ?_⟩
  · unfold jaccardSimilarity
    rw [Finset.inter_comm a b, Finset.union_comm a b]
  · unfold jaccardSimilarity
    apply div_nonneg
    · positivity
    · by_cases h : (a ∪ b).card = 0
      · simp [h]
      · simp [h]
  · unfold jaccardSimilarity
    have hsub : (a ∩ b).card ≤ (a ∪ b).card :=
      Finset.card_le_card (Finset.inter_subset_union)
    by_cases h : (a ∪ b).card = 0
    · have hz : (a ∩ b).card = 0 := by omega
      simp [h, hz]
    · simp only [h, if_false]
      rw [div_le_one (by positivity)]
      exact_mod_cast hsub
  · intro hne
    unfold jaccardSimilarity
    have hcard : (nameTokens name).card ≠ 0 := by
      simpa [Finset.card_eq_zero] using hne
    simp only [Finset.inter_self, Finset.union_self, hcard, if_false]
    exact div_self (by exact_mod_cast hcard)
  · intro he
    rw [he]
    simp [jaccardSimilarity]

/-- C9 amended witness: the name Boeing has a nonempty normalized token
set and self-similarity exactly 1. -/
theorem jaccardSimilarity_props_witness :
    nameTokens "Boeing" ≠ ∅ ∧
    jaccardSimilarity (nameTokens "Boeing") (nameTokens "Boeing") = 1 :=
  ⟨by decide,
   (jaccardSimilarity_props (nameTokens "Boeing") (nameTokens "Boeing") "Boeing").2.2.2.1
     (by decide)⟩

theorem findCompanyMatch_foldl_ge (tgt : Finset String) (dir : List TickerEntry) :
    ∀ (acc : Option (TickerEntry × ℚ)),
      (∀ e s, acc = some (e, s) → (0.8 : ℚ) ≤ s) →
      ∀ e s, dir.foldl (findCompanyMatchStep tgt) acc = some (e, s) → (0.8 : ℚ) ≤ s := by
  induction dir with
  | nil =>
    intro acc hacc e s h
    exact hacc e s h
  | cons entry rest ih =>
    intro acc hacc e s h
    rw [List.foldl_cons] at h
    refine ih _ ?_ e s h
    intro e2 s2 h2
    unfold findCompanyMatchStep at h2
    simp only [] at h2
    split at h2
    · rename_i hcond
      obtain ⟨he, hs⟩ := Prod.mk.injEq .. ▸ Option.some.injEq .. ▸ h2
      have hdec : decide ((0.8 : ℚ) ≤ jaccardSimilarity tgt (nameTokens entry.title)) = true :=
        (Bool.and_eq_true ..).mp hcond |>.1
      have := of_decide_eq_true hdec
      exact hs ▸ this
    · exact hacc e2 s2 h2

theorem findCompanyMatch_foldl_none (tgt : Finset String) (dir : List TickerEntry)
    (hall : ∀ e ∈ dir, jaccardSimilarity tgt (nameTokens e.title) < 0.8) :
    dir.foldl (findCompanyMatchStep tgt) none = none := by
  induction dir with
  | nil => rfl
  | cons entry rest ih =>
    rw [List.foldl_cons]
    have hlt := hall entry (by simp)
    have hdec : decide ((0.8 : ℚ) ≤ jaccardSimilarity tgt (nameTokens entry.title)) = false :=
      decide_eq_false (not_le.mpr hlt)
    have hstep : findCompanyMatchStep tgt none entry = none := by
      unfold findCompanyMatchStep
      simp [hdec]
    rw [hstep]
    exact ih (fun e he => hall e (by simp [he]))

theorem round2_ge_of_ge (q : ℚ) (h : (0.8 : ℚ) ≤ q) : (0.8 : ℚ) ≤ round2 q := by
  unfold round2
  have h1 : (80 : ℚ) ≤ q * 100 := by nlinarith
  have hm : round ((80 : ℚ)) ≤ round (q * 100) := by
    rw [round_eq, round_eq]
    exact Int.floor_le_floor (by linarith)
  have h80 : round ((80 : ℚ)) = 80 := by
    have hc : ((80 : ℤ) : ℚ) = (80 : ℚ) := by norm_num
    rw [← hc, round_intCast]
  have h2 : (80 : ℤ) ≤ round (q * 100) := h80 ▸ hm
  rw [le_div_iff (by norm_num : (0 : ℚ) < 100)]
  have h3 : ((80 : ℤ) : ℚ) ≤ ((round (q * 100) : ℤ) : ℚ) := by exact_mod_cast h2
  have h4 : ((80 : ℤ) : ℚ) = (80 : ℚ) := by norm_num
  nlinarith [h3]

/-- C6: filing classification is deterministic and pure — classifying the
same raw list twice yields identical isExcluded flags, every filing with
form type 4 is excluded, and every 10-K filing whose lowercased
description contains no exclusion keyword is not excluded. -/
theorem listAllFilings_classification (raw raw2 : List RawFiling) (maxCount : Nat) :
    (raw = raw2 →
      (listAllFilingsPure raw maxCount).map EdgarFiling.isExcluded =
        (listAllFilingsPure raw2 maxCount).map EdgarFiling.isExcluded) ∧
    (∀ f ∈ listAllFilingsPure raw maxCount, f.form = "4" → f.isExcluded = true) ∧
    (∀ f ∈ listAllFilingsPure raw maxCount, f.form = "10-K" →
      (∀ k ∈ stockKeywords, containsSubstr (toLowerStr f.description) k = false) →
      f.isExcluded = false) := by
  refine ⟨fun h => by rw [h], ?_, ?_⟩
  · intro f hf hform
    simp only [listAllFilingsPure, List.mem_map] at hf
    obtain ⟨r, _, rfl⟩ := hf
    simp only at hform
    show isStockTransactionFiling r.form r.primaryDocument = true
    rw [hform]
    unfold isStockTransactionFiling
    rw [if_pos (by decide)]
  · intro f hf hform hkw
    simp only [listAllFilingsPure, List.mem_map] at hf
    obtain ⟨r, _, rfl⟩ := hf
    simp only at hform hkw
    show isStockTransactionFiling r.form r.primaryDocument = false
    rw [hform]
    unfold isStockTransactionFiling
    rw [if_neg (by decide)]
    rw [List.any_eq_false]
    intro k hk
    simp only [hkw k hk, Bool.false_eq_true, not_false_eq_true]

/-- C6 witness: a concrete form-4 row is excluded and a concrete 10-K row
with a benign document name is not. -/
theorem listAllFilings_classification_witness :
    ({ form := "4", accessionNumber := "a1", primaryDocument := "d1.htm",
       reportDate := none, filingDate := none, description := "d1.htm",
       isExcluded := true } : EdgarFiling).isExcluded = true ∧
    ({ form := "10-K", accessionNumber := "a2", primaryDocument := "a10k2023.htm",
       reportDate := none, filingDate := none, description := "a10k2023.htm",
       isExcluded := false } : EdgarFiling).isExcluded = false :=
  ⟨(listAllFilings_classification
      [⟨"4", "a1", "d1.htm", none, none⟩, ⟨"10-K", "a2", "a10k2023.htm", none, none⟩] [] 5).2.1
      _ (by decide) (by decide),
   (listAllFilings_classification
      [⟨"4", "a1", "d1.htm", none, none⟩, ⟨"10-K", "a2", "a10k2023.htm", none, none⟩] [] 5).2.2
      _ (by decide) (by decide) (by decide)⟩

/-- C5: identifyPublicCompany never raises — with the override tables
missing the query, a directory-load failure, an empty directory, or a
directory in which no entry reaches Jaccard similarity 0.8 all produce the
isPublic false, confidence 0 record, while an accepted directory entry
yields isPublic true with confidence equal to the accepted score rounded
to two decimals, hence at least 0.8. -/
theorem identifyPublicCompany_contract (odom oname : List (String × String))
    (name : String) (website : Option String) (dir : List TickerEntry) (emsg : String)
    (hmiss : domainOverrideHit odom website = none ∧ nameOverrideHit oname name = none) :
    identifyPublicCompany odom oname name website (.error emsg) =
      { isPublic := false, confidence := 0 } ∧
    ((∀ e ∈ dir, jaccardSimilarity (nameTokens name) (nameTokens e.title) < 0.8) →
      identifyPublicCompany odom oname name website (.ok dir) =
        { isPublic := false, confidence := 0 }) ∧
    identifyPublicCompany odom oname name website (.ok []) =
      { isPublic := false, confidence := 0 } ∧
    (∀ e s, findCompanyMatch name dir = some (e, s) →
      (identifyPublicCompany odom oname name website (.ok dir)).isPublic = true ∧
      (identifyPublicCompany odom oname name website (.ok dir)).confidence = round2 s ∧
      (0.8 : ℚ) ≤ (identifyPublicCompany odom oname name website (.ok dir)).confidence) := by
  obtain ⟨h1, h2⟩ := hmiss
  refine ⟨?_, ?_, ?_, ?_⟩
  · simp [identifyPublicCompany, h1, h2]
  · intro hall
    have hnone : findCompanyMatch name dir = none :=
      findCompanyMatch_foldl_none (nameTokens name) dir hall
    simp [identifyPublicCompany, h1, h2, hnone]
  · simp [identifyPublicCompany, h1, h2, findCompanyMatch]
  · intro e s hfound
    have hge : (0.8 : ℚ) ≤ s :=
      findCompanyMatch_foldl_ge (nameTokens name) dir none (by intro e2 s2 h; cases h) e s hfound
    refine ⟨?_, ?_, ?_⟩
    · simp [identifyPublicCompany, h1, h2, hfound]
    · simp [identifyPublicCompany, h1, h2, hfound]
    · simp [identifyPublicCompany, h1, h2, hfound]
      exact round2_ge_of_ge s hge

/-- C5 witness: with empty override tables, a directory-load failure for
the name Apple Inc yields the isPublic false, confidence 0 record. -/
theorem identifyPublicCompany_contract_witness :
    identifyPublicCompany [] [] "Apple Inc" none (.error "network down") =
      { isPublic := false, confidence := 0 } :=
  (identifyPublicCompany_contract [] [] "Apple Inc" none [] "network down"
    ⟨by decide, by decide⟩).1

theorem runCascade_snd_eq_findSome (l : List (StrategyId × Option TickerResult)) :
    (runCascade l).2 = (l.map Prod.snd).findSome?
      (fun o => o.bind (fun r => if (0.7 : ℚ) < r.confidence then some r else none)) := by
  induction l with
  | nil => rfl
  | cons p rest ih =>
    obtain ⟨s, o⟩ := p
    cases o with
    | none => simpa [runCascade, List.findSome?_cons] using ih
    | some r =>
      by_cases hc : (0.7 : ℚ) < r.confidence
      · simp [runCascade, hc, List.findSome?_cons]
      · simpa [runCascade, hc, List.findSome?_cons] using ih

theorem runCascade_executed (l : List (StrategyId × Option TickerResult)) :
    ∃ rest, l.map Prod.fst = (runCascade l).1 ++ rest ∧
      ((runCascade l).2 = none → rest = []) := by
  induction l with
  | nil => exact ⟨[], rfl, fun _ => rfl⟩
  | cons p tail ih =>
    obtain ⟨s, o⟩ := p
    cases o with
    | none =>
      obtain ⟨r2, h1, h2⟩ := ih
      refine ⟨r2, ?_, ?_⟩
      · simp only [runCascade, List.map_cons, List.cons_append]
        rw [h1]
      · intro hn
        apply h2
        simpa [runCascade] using hn
    | some r =>
      by_cases hc : (0.7 : ℚ) < r.confidence
      · refine ⟨tail.map Prod.fst, ?_, ?_⟩
        · simp [runCascade, hc]
        · intro hn
          simp [runCascade, hc] at hn
      · obtain ⟨r2, h1, h2⟩ := ih
        refine ⟨r2, ?_, ?_⟩
        · simp only [runCascade, hc, if_false, List.map_cons, List.cons_append]
          rw [h1]
        · intro hn
          apply h2
          simpa [runCascade, hc] using hn

theorem runCascade_all_fail (l : List (StrategyId × Option TickerResult))
    (hall : ∀ p ∈ l, ∀ r, p.2 = some r → r.confidence ≤ 0.7) :
    runCascade l = (l.map Prod.fst, none) := by
  induction l with
  | nil => rfl
  | cons p tail ih =>
    obtain ⟨s, o⟩ := p
    have ihr := ih (fun p hp r hr => hall p (by simp [hp]) r hr)
    cases o with
    | none => simp [runCascade, ihr]
    | some r =>
      have hle : r.confidence ≤ 0.7 := hall (s, some r) (by simp) r rfl
      have hc : ¬ (0.7 : ℚ) < r.confidence := not_lt.mpr hle
      simp [runCascade, hc, ihr]

theorem runCascade_some_gt (l : List (StrategyId × Option TickerResult)) :
    ∀ r, (runCascade l).2 = some r → (0.7 : ℚ) < r.confidence := by
  induction l with
  | nil => intro r h; cases h
  | cons p tail ih =>
    obtain ⟨s, o⟩ := p
    intro r h
    cases o with
    | none => exact ih r (by simpa [runCascade] using h)
    | some r2 =>
      by_cases hc : (0.7 : ℚ) < r2.confidence
      · have : r2 = r := by simpa [runCascade, hc] using h
        exact this ▸ hc
      · exact ih r (by simpa [runCascade, hc] using h)

theorem strategyOutcome_confidence (name : String) (oracle : StrategyId → Option FoundTicker)
    (s : StrategyId) (r : TickerResult) (hs : s ≠ StrategyId.manualMappings)
    (h : strategyOutcome name oracle s = some r) :
    r.confidence = nominalConfidence s := by
  cases s
  all_goals
    first
    | exact absurd rfl hs
    | (rcases ho : oracle _ with _ | f
       · rw [strategyOutcome, ho] at h
         cases h
       · rw [strategyOutcome, ho] at h
         simp only [Option.map_some'] at h
         obtain rfl := Option.some_inj.mp h
         rfl)

theorem searchManualMappings_boeing :
    searchManualMappings "Boeing" =
      some { ticker := "BA", confidence := 0.99, method := "manual_mapping",
             exchange := some "NYSE", companyName := some "Boeing" } := rfl

theorem discoverTicker_manual_only (oracle : StrategyId → Option FoundTicker)
    (h : ∀ s, s ≠ StrategyId.manualMappings → oracle s = none) :
    discoverTicker "Boeing" oracle true =
      (strategyOrder true,
        some { ticker := "BA", confidence := 0.99, method := "manual_mapping",
               exchange := some "NYSE", companyName := some "Boeing" }) := by
  have h1 := h .googleFinance (by simp)
  have h2 := h .yahooFinance (by simp)
  have h3 := h .alphaVantage (by simp)
  have h4 := h .financialModelingPrep (by simp)
  have h5 := h .exaMultiQuery (by simp)
  have h6 := h .internationalExchanges (by simp)
  have h7 := h .europeanExchanges (by simp)
  have h8 := h .asianExchanges (by simp)
  have h9 := h .webScraping (by simp)
  have hlt : (0.7 : ℚ) < (0.99 : ℚ) := by norm_num
  simp [discoverTicker, strategyOrder, strategyOutcome, h1, h2, h3, h4, h5, h6, h7, h8, h9,
    runCascade, searchManualMappings_boeing, hlt]

/-- C3 counterexample: the confidence sequence of the actual strategy
cascade (international search enabled, manual table last and excluded)
differs from the sequence the specification asserts — the code runs the
0.80 generic ticker/stock keyword search before the 0.85
financial-modeling keyword search, the spec claims the reverse order. -/
theorem cascade_confidence_order_ne_spec :
    ((strategyOrder true).dropLast.map nominalConfidence) ≠ specClaimedCascadeConfidences := by
  intro h
  have h3 := congrArg (fun l => l.getD 2 0) h
  simp [strategyOrder, nominalConfidence, specClaimedCascadeConfidences] at h3
  norm_num at h3

/-- C3 amended: the cascade confidence order is 0.95, 0.90, 0.80, 0.85,
0.75, then 0.70 for each regional sweep, then 0.80, with the manual
name-to-ticker table last; for a company present only in the manual table
(Boeing, ticker BA) and all web strategies yielding nothing, discovery
executes every strategy of the cascade and only then returns the
manual-mapping result. -/
theorem discoverTicker_strategy_order (oracle : StrategyId → Option FoundTicker)
    (h : ∀ s, s ≠ StrategyId.manualMappings → oracle s = none) :
    ((strategyOrder true).dropLast.map nominalConfidence) =
      [0.95, 0.9, 0.8, 0.85, 0.75, 0.7, 0.7, 0.7, 0.8] ∧
    (strategyOrder true).getLast? = some StrategyId.manualMappings ∧
    discoverTicker "Boeing" oracle true =
      (strategyOrder true,
        some { ticker := "BA", confidence := 0.99, method := "manual_mapping",
               exchange := some "NYSE", companyName := some "Boeing" }) :=
  ⟨rfl, by decide, discoverTicker_manual_only oracle h⟩

/-- C3 amended witness: with every web strategy yielding nothing, Boeing
resolves to BA by manual mapping after the full cascade has executed. -/
theorem discoverTicker_strategy_order_witness :
    discoverTicker "Boeing" (fun _ => none) true =
      (strategyOrder true,
        some { ticker := "BA", confidence := 0.99, method := "manual_mapping",
               exchange := some "NYSE", companyName := some "Boeing" }) :=
  (discoverTicker_strategy_order (fun _ => none) (fun _ _ => rfl)).2.2

/-- C4: the discovery loop returns the candidate of the first strategy in
cascade order whose candidate confidence is strictly above 0.70 — the
executed strategies form a prefix of the cascade that is the whole cascade
when nothing is returned, a cascade in which every produced candidate has
confidence at most 0.70 returns null, and any returned candidate has
confidence strictly above 0.70 (so a 0.70 regional-exchange candidate is
never returned). -/
theorem discoverTicker_first_clearing (name : String)
    (oracle : StrategyId → Option FoundTicker) (intl : Bool) :
    ((discoverTicker name oracle intl).2 =
      ((strategyOrder intl).map (fun s => strategyOutcome name oracle s)).findSome?
        (fun o => o.bind (fun r => if (0.7 : ℚ) < r.confidence then some r else none))) ∧
    (∃ rest, strategyOrder intl = (discoverTicker name oracle intl).1 ++ rest ∧
      ((discoverTicker name oracle intl).2 = none → rest = [])) ∧
    ((∀ s ∈ strategyOrder intl, ∀ r, strategyOutcome name oracle s = some r →
        r.confidence ≤ 0.7) →
      (discoverTicker name oracle intl).2 = none) ∧
    (∀ r, (discoverTicker name oracle intl).2 = some r → (0.7 : ℚ) < r.confidence) := by
  refine ⟨?_, ?_, ?_, ?_⟩
  · rw [discoverTicker, runCascade_snd_eq_findSome, List.map_map]
    rfl
  · obtain ⟨rest, h1, h2⟩ :=
      runCascade_executed ((strategyOrder intl).map (fun s => (s, strategyOutcome name oracle s)))
    rw [List.map_map] at h1
    refine ⟨rest, ?_, h2⟩
    have hid : (Prod.fst ∘ fun s => (s, strategyOutcome name oracle s)) = id := rfl
    rw [hid, List.map_id] at h1
    exact h1
  · intro hall
    rw [discoverTicker, runCascade_all_fail]
    intro p hp r hr
    simp only [List.mem_map] at hp
    obtain ⟨s, hs, rfl⟩ := hp
    exact hall s hs r hr
  · intro r h
    exact runCascade_some_gt _ r h

/-- C4 witness: at the concrete all-failing web oracle, the Boeing
manual-mapping candidate that discovery returns has confidence strictly
above 0.70. -/
theorem discoverTicker_first_clearing_witness :
    (0.7 : ℚ) <
      (TickerResult.mk "BA" 0.99 "manual_mapping" (some "NYSE") (some "Boeing")).confidence :=
  (discoverTicker_first_clearing "Boeing" (fun _ => none) true).2.2.2 _
    (by rw [discoverTicker_manual_only (fun _ => none) (fun _ _ => rfl)])

theorem crust_prefixed_ne_empty (m : String) : ("CrustData: " ++ m) ≠ "" := by
  intro h
  have hl := congrArg String.length h
  rw [String.length_append] at hl
  have h11 : ("CrustData: " : String).length = 11 := by decide
  have h0 : ("" : String).length = 0 := by decide
  omega

theorem crustTask_error_truthy (oc : CrustOutcome) (r : EnrichResult)
    (hf : oc.isFailure = true) :
    strTruthy (runCrustTask oc r).error = true := by
  cases oc with
  | ok c => cases hf
  | err m =>
    cases m with
    | none => simp [runCrustTask, strTruthy]
    | some s =>
      by_cases hs : s = ""
      · simp [runCrustTask, strTruthy, hs]
      · simp [runCrustTask, strTruthy, hs]
  | exn m =>
    simp [runCrustTask, strTruthy]
    exact crust_prefixed_ne_empty m

/-- C1: the task list of enrichCompany is built synchronously against the
fresh result object, whose company is null and ticker undefined; for every
options value and every collaborator environment the list therefore
contains at most the base-profile task, and the returned record always
has ticker, secData, secSignals, exaData and firecrawlData undefined. -/
theorem enrichCompany_only_base_task (o : EnrichmentOptions) (env : TaskEnv) :
    ({} : EnrichResult).company = none ∧
    ({} : EnrichResult).ticker = none ∧
    buildTasks o ({} : EnrichResult) =
      (if o.includeCrustData.getD true then [TaskKind.crustData] else []) ∧
    (enrichCompany o env).ticker = none ∧
    (enrichCompany o env).secData = none ∧
    (enrichCompany o env).secSignals = none ∧
    (enrichCompany o env).exaData = none ∧
    (enrichCompany o env).firecrawlData = none := by
  have hb : buildTasks o ({} : EnrichResult) =
      (if o.includeCrustData.getD true then [TaskKind.crustData] else []) := by
    simp [buildTasks, strTruthy]
  have key : (enrichCompany o env).ticker = none ∧ (enrichCompany o env).secData = none ∧
      (enrichCompany o env).secSignals = none ∧ (enrichCompany o env).exaData = none ∧
      (enrichCompany o env).firecrawlData = none := by
    simp only [enrichCompany, hb]
    by_cases hc : o.includeCrustData.getD true
    · simp only [hc, if_true, List.foldl_cons, List.foldl_nil]
      cases hcr : env.crust <;> simp [runTask, runCrustTask, hcr]
    · simp [hc]
  exact ⟨rfl, rfl, hb, key.1, key.2.1, key.2.2.1, key.2.2.2.1, key.2.2.2.2⟩

/-- C2: a task with a data dependency is enqueued only when its
prerequisite field is populated in the shared result object at
construction time, and when the mandatory base-profile fetch runs and
fails the returned record has success false and neither the
ticker-discovery nor the SEC filing task was ever enqueued. -/
theorem enrichCompany_dependency_snapshot (o : EnrichmentOptions) (r : EnrichResult)
    (env : TaskEnv) :
    (TaskKind.tickerDiscovery ∈ buildTasks o r → r.company.isSome = true) ∧
    (TaskKind.sec ∈ buildTasks o r →
      (strTruthy r.ticker || strTruthy (r.company.map Company.name)) = true) ∧
    (TaskKind.secSignals ∈ buildTasks o r →
      (match r.secData with
       | some sd => sd.filings.isSome
       | none => false) = true ∧ strTruthy r.ticker = true) ∧
    (TaskKind.exa ∈ buildTasks o r → r.company.isSome = true) ∧
    (TaskKind.firecrawl ∈ buildTasks o r → r.company.isSome = true) ∧
    (o.includeCrustData.getD true = true → env.crust.isFailure = true →
      (enrichCompany o env).success = false ∧
      TaskKind.tickerDiscovery ∉ buildTasks o ({} : EnrichResult) ∧
      TaskKind.sec ∉ buildTasks o ({} : EnrichResult)) := by
  refine ⟨?_, ?_, ?_, ?_, ?_, ?_⟩
  · intro h
    simp only [buildTasks, List.mem_append] at h
    rcases h with ((((h | h) | h) | h) | h) | h <;> split at h <;> simp_all
  · intro h
    simp only [buildTasks, List.mem_append] at h
    rcases h with ((((h | h) | h) | h) | h) | h <;> split at h <;> simp_all
  · intro h
    simp only [buildTasks, List.mem_append] at h
    rcases h with ((((h | h) | h) | h) | h) | h <;> split at h <;> simp_all
  · intro h
    simp only [buildTasks, List.mem_append] at h
    rcases h with ((((h | h) | h) | h) | h) | h <;> split at h <;> simp_all
  · intro h
    simp only [buildTasks, List.mem_append] at h
    rcases h with ((((h | h) | h) | h) | h) | h <;> split at h <;> simp_all
  · intro hinc hfail
    have hb : buildTasks o ({} : EnrichResult) = [TaskKind.crustData] := by
      simp [buildTasks, strTruthy, hinc]
    refine ⟨?_, by simp [hb], by simp [hb]⟩
    simp only [enrichCompany, hb, List.foldl_cons, List.foldl_nil]
    have ht := crustTask_error_truthy env.crust ({} : EnrichResult) hfail
    simp [runTask, ht]

/-- C2 witness: with default options and a failing base-profile fetch the
record has success false and no ticker-discovery or SEC task was built. -/
theorem enrichCompany_dependency_snapshot_witness :
    (enrichCompany {} { crust := CrustOutcome.err none }).success = false ∧
    TaskKind.tickerDiscovery ∉ buildTasks {} ({} : EnrichResult) ∧
    TaskKind.sec ∉ buildTasks {} ({} : EnrichResult) :=
  (enrichCompany_dependency_snapshot {} {} { crust := CrustOutcome.err none }).2.2.2.2.2
    rfl rfl

/-- C7: the final record has success true exactly when no fatal error was
recorded, a fatal error arising only from a failing mandatory base-profile
fetch; every task other than the base-profile task leaves the error field
of the record untouched, so no other sub-task failure can flip success. -/
theorem enrichCompany_success_iff (o : EnrichmentOptions) (env : TaskEnv) :
    (enrichCompany o env).success = !(o.includeCrustData.getD true && env.crust.isFailure) ∧
    (∀ k, k ≠ TaskKind.crustData → ∀ r, (runTask o env k r).error = r.error) := by
  constructor
  · have hb : buildTasks o ({} : EnrichResult) =
        (if o.includeCrustData.getD true then [TaskKind.crustData] else []) := by
      simp [buildTasks, strTruthy]
    simp only [enrichCompany, hb]
    by_cases hc : o.includeCrustData.getD true
    · simp only [hc, if_true, List.foldl_cons, List.foldl_nil]
      cases hcr : env.crust with
      | ok c => simp [runTask, runCrustTask, strTruthy, CrustOutcome.isFailure, hcr]
      | err m =>
        have ht := crustTask_error_truthy (.err m) ({} : EnrichResult) rfl
        simp [runTask, hcr, hc, CrustOutcome.isFailure, ht]
      | exn m =>
        have ht := crustTask_error_truthy (.exn m) ({} : EnrichResult) rfl
        simp [runTask, hcr, hc, CrustOutcome.isFailure, ht]
    · simp [hc, strTruthy]
  · intro k hk r
    cases k with
    | crustData => exact absurd rfl hk
    | tickerDiscovery =>
      cases hc : r.company <;> cases ho : env.tickerOutcome <;>
        simp [runTask, runTickerTask, hc, ho]
    | sec =>
      cases ho : env.secOutcome with
      | exn => simp [runTask, runSecTask, ho]
      | identified m filings =>
        by_cases hm : (m.isPublic && strTruthy m.cik) = true <;>
          simp [runTask, runSecTask, ho, hm]
    | secSignals =>
      cases hc : r.secData with
      | none => simp [runTask, runSecSignalsTask, hc]
      | some sd =>
        cases hf : sd.filings with
        | none => simp [runTask, runSecSignalsTask, hc, hf]
        | some fs =>
          cases ho : env.signalsOutcome <;>
            simp [runTask, runSecSignalsTask, hc, hf, ho] <;> split <;> simp
    | exa =>
      cases hc : r.company <;> simp [runTask, runExaTask, hc]
    | firecrawl =>
      cases hc : r.company <;> cases ho : env.firecrawlOutcome <;>
        simp [runTask, runFirecrawlTask, hc, ho]

/-- C7 witness: with default options, a failing fetch gives success false,
and the Exa task leaves the error field of a record untouched. -/
theorem enrichCompany_success_iff_witness :
    (enrichCompany {} { crust := CrustOutcome.exn "boom" }).success =
      !((({} : EnrichmentOptions).includeCrustData.getD true) &&
        (CrustOutcome.exn "boom").isFailure) ∧
    (runTask {} { crust := CrustOutcome.exn "boom" } TaskKind.exa
      ({} : EnrichResult)).error = ({} : EnrichResult).error :=
  ⟨(enrichCompany_success_iff {} { crust := CrustOutcome.exn "boom" }).1,
   (enrichCompany_success_iff {} { crust := CrustOutcome.exn "boom" }).2
     TaskKind.exa (by simp) ({} : EnrichResult)⟩

theorem effectiveConcurrency_pos (o : EnrichmentOptions) : 0 < effectiveConcurrency o := by
  unfold effectiveConcurrency
  rcases o.maxConcurrency with _ | (_ | n) <;> simp

theorem batchLoop_props (c : Nat) :
    ∀ (n : Nat) (l : List String), l.length ≤ n →
      ((batchLoop c l).1).flatten = l ∧
      (∀ b ∈ (batchLoop c l).1, b ≠ [] ∧ b.length ≤ c + 1) ∧
      (∀ i, i + 1 < (batchLoop c l).1.length →
        ((batchLoop c l).1.getD i []).length = c + 1) ∧
      (batchLoop c l).2 = (batchLoop c l).1.length - 1 := by
  intro n
  induction n with
  | zero =>
    intro l hl
    have hnil : l = [] := List.eq_nil_of_length_eq_zero (Nat.le_zero.mp hl)
    subst hnil
    refine ⟨by simp [batchLoop], ?_, ?_, by simp [batchLoop]⟩
    · intro b hb
      simp [batchLoop] at hb
    · intro i hi
      simp [batchLoop] at hi
  | succ n ih =>
    intro l hl
    cases l with
    | nil =>
      refine ⟨by simp [batchLoop], ?_, ?_, by simp [batchLoop]⟩
      · intro b hb
        simp [batchLoop] at hb
      · intro i hi
        simp [batchLoop] at hi
    | cons x xs =>
      have hrest : (xs.drop c).length ≤ n := by
        rw [List.length_drop]
        simp only [List.length_cons] at hl
        omega
      obtain ⟨ihf, ihm, ihfull, ihd⟩ := ih (xs.drop c) hrest
      have heq : batchLoop c (x :: xs) =
          ((x :: xs.take c) :: (batchLoop c (xs.drop c)).1,
            (if (xs.drop c).isEmpty then 0 else 1) + (batchLoop c (xs.drop c)).2) := by
        rw [batchLoop]
      have hnil_iff : (batchLoop c (xs.drop c)).1 = [] → xs.drop c = [] := by
        intro hn
        rw [← ihf, hn]
        rfl
      have hnonempty : xs.drop c ≠ [] → (batchLoop c (xs.drop c)).1 ≠ [] := by
        intro hne hn
        exact hne (hnil_iff hn)
      refine ⟨?_, ?_, ?_, ?_⟩
      · rw [heq]
        simp only [List.flatten_cons, ihf, List.cons_append]
        rw [List.take_append_drop]
      · intro b hb
        rw [heq] at hb
        simp only [List.mem_cons] at hb
        rcases hb with rfl | hb
        · refine ⟨by simp, ?_⟩
          simp only [List.length_cons, List.length_take]
          omega
        · exact ihm b hb
      · intro i hi
        rw [heq] at hi
        simp only [List.length_cons] at hi
        rw [heq]
        cases i with
        | zero =>
          have hbne : (batchLoop c (xs.drop c)).1 ≠ [] := by
            intro hn
            rw [hn] at hi
            simp at hi
          have hdne : xs.drop c ≠ [] := by
            intro hd
            apply hbne
            rw [hd]
            simp [batchLoop]
          have hcle : c < xs.length := by
            by_contra hcle
            exact hdne (List.drop_eq_nil_of_le (by omega))
          simp only [List.getD_cons_zero, List.length_cons, List.length_take]
          omega
        | succ j =>
          simp only [List.getD_cons_succ]
          exact ihfull j (by omega)
      · rw [heq]
        simp only [List.length_cons]
        by_cases hre : xs.drop c = []
        · simp [hre, batchLoop]
        · have hbne := hnonempty hre
          have hlen : 0 < (batchLoop c (xs.drop c)).1.length := List.length_pos.mpr hbne
          have he : (xs.drop c).isEmpty = false := by
            simpa [List.isEmpty_iff] using hre
          rw [he, ihd]
          simp only [Bool.false_eq_true, if_false]
          omega

/-- C10: bulk enrichment processes identifiers in consecutive batches of
the effective concurrency (all batches nonempty, all full except possibly
the last), returns the per-identifier results in input order, and sleeps
exactly once between consecutive batches; for three identifiers,
concurrency 3 gives one batch and no delay while concurrency 1 gives
three batches and two delays. -/
theorem enrichCompanies_batching (ids : List String) (o : EnrichmentOptions)
    (envOf : String → TaskEnv) :
    (enrichCompanies ids o envOf).1 = ids.map (fun i => enrichCompany o (envOf i)) ∧
    ((batchLoop (effectiveConcurrency o - 1) ids).1).flatten = ids ∧
    (∀ b ∈ (batchLoop (effectiveConcurrency o - 1) ids).1,
      b ≠ [] ∧ b.length ≤ effectiveConcurrency o) ∧
    (∀ i, i + 1 < (batchLoop (effectiveConcurrency o - 1) ids).1.length →
      ((batchLoop (effectiveConcurrency o - 1) ids).1.getD i []).length =
        effectiveConcurrency o) ∧
    (enrichCompanies ids o envOf).2 =
      (batchLoop (effectiveConcurrency o - 1) ids).1.length - 1 ∧
    (batchLoop (effectiveConcurrency { maxConcurrency := some 3 } - 1)
      ["google.com", "microsoft.com", "apple.com"]) =
      ([["google.com", "microsoft.com", "apple.com"]], 0) ∧
    (batchLoop (effectiveConcurrency { maxConcurrency := some 1 } - 1)
      ["google.com", "microsoft.com", "apple.com"]) =
      ([["google.com"], ["microsoft.com"], ["apple.com"]], 2) := by
  have hpos := effectiveConcurrency_pos o
  have hc1 : effectiveConcurrency o - 1 + 1 = effectiveConcurrency o := by omega
  obtain ⟨hf, hm, hfull, hd⟩ :=
    batchLoop_props (effectiveConcurrency o - 1) ids.length ids le_rfl
  refine ⟨?_, hf, ?_, ?_, ?_, ?_, ?_⟩
  · show ((batchLoop (effectiveConcurrency o - 1) ids).1.map
      (fun b => b.map (fun i => enrichCompany o (envOf i)))).flatten = _
    rw [← List.map_flatten, hf]
  · intro b hb
    exact ⟨(hm b hb).1, hc1 ▸ (hm b hb).2⟩
  · intro i hi
    rw [hfull i hi, hc1]
  · exact hd
  · simp [batchLoop, effectiveConcurrency]
  · simp [batchLoop, effectiveConcurrency]

/-- C10 witness: three identifiers at concurrency 1 produce exactly two
inter-batch delays, and the first batch is full at size 1. -/
theorem enrichCompanies_batching_witness :
    (enrichCompanies ["google.com", "microsoft.com", "apple.com"]
      { maxConcurrency := some 1 } (fun _ => { crust := CrustOutcome.err none })).2 = 2 ∧
    ((batchLoop (effectiveConcurrency { maxConcurrency := some 1 } - 1)
      ["google.com", "microsoft.com", "apple.com"]).1.getD 0 []).length =
      effectiveConcurrency { maxConcurrency := some 1 } := by
  have h := enrichCompanies_batching ["google.com", "microsoft.com", "apple.com"]
    { maxConcurrency := some 1 } (fun _ => { crust := CrustOutcome.err none })
  have hbl := h.2.2.2.2.2.2
  refine ⟨?_, ?_⟩
  · rw [h.2.2.2.2.1, hbl]
    rfl
  · exact h.2.2.2.1 0 (by rw [hbl]; norm_num)

end AeroEnrichment
